import Mathlib

/-!
# Verification of the SAS analysis orchestration core

Shallow embedding of the orchestration core of the `sas-api` repository:

* the leased module queue (`src/lib/module-queue.ts`: `claimNextJob`,
  `failJob`, `completeJob`);
* the analysis orchestrator (`src/lib/orchestrator.ts`:
  `canExecuteModule`, `getReadyModules`, `executeModule`,
  `updateProgress`, `isComplete`, `isAwaitingHITL`, `finalize`);
* the module runner (`src/lib/module-runner.ts`: `runAnalysisModules`);
* the HITL checkpoint resolution endpoint
  (`api/hitl/checkpoints/[id]/resolve.ts`).

The persisted record store (Supabase tables) is modelled as explicit state:
a list of queue entries for the queue, and a `Store` structure holding the
analysis record, the per-module records and the checkpoint records for one
analysis.  JavaScript numbers are modelled as `Int`/`Nat`/`Rat`;
`Math.round` is modelled as `fun q => Int.floor (q + 1/2)`, which agrees
with the JavaScript semantics on all rationals.  Timestamps are integer
epoch milliseconds.  Opaque payloads (module `data`, checkpoint
`data_snapshot`, error strings) are not inspected by any of the code under
verification and are omitted from the record models.
-/

/-! ## Basic enumerations (src/types/database.ts) -/

/-- `ModuleType` from `src/types/database.ts`. -/
inductive ModuleType
  | market_demand
  | revenue_intelligence
  | competitive_intelligence
  | social_sentiment
  | linkedin_contacts
  | google_maps
  | financial_modeling
  | risk_assessment
  | operational_feasibility
deriving DecidableEq, Repr

/-- `ModuleStatus` from `src/types/database.ts`. -/
inductive ModuleStatus
  | pending
  | running
  | hitl_pending
  | approved
  | revision_requested
  | completed
  | failed
  | skipped
deriving DecidableEq, Repr

/-- `AnalysisStatus` from `src/types/database.ts`. -/
inductive AnalysisStatus
  | draft
  | running
  | hitl_pending
  | completed
  | failed
  | cancelled
deriving DecidableEq, Repr

/-- Checkpoint status from the `HITLCheckpoint` interface. -/
inductive CkStatus
  | pending
  | approved
  | revision_requested
  | rejected
deriving DecidableEq, Repr

/-- `HITLAction` from `src/types/database.ts`. -/
inductive HITLAction
  | approve_all
  | approve_selected
  | request_revision
  | reject
deriving DecidableEq, Repr

/-! ## Leased module queue (src/lib/module-queue.ts)

A queue entry is a row of the `module_queue` table (`QueuedJob`).  The
`analysis_id`, `module_type` and `error_message` columns are irrelevant to
the claims (the error message is an opaque string) and are kept only where
the code reads or writes them. -/

/-- The job statuses of the queue table
(`'queued' | 'processing' | 'completed' | 'failed'`). -/
inductive JobStatus
  | queued
  | processing
  | completed
  | failed
deriving DecidableEq, Repr

/-- A row of the `module_queue` table (interface `QueuedJob`). -/
structure QueuedJob where
  id : Nat
  status : JobStatus
  priority : Int
  attempts : Nat
  max_attempts : Nat
  worker_id : Option String
  locked_at : Option Int
  created_at : Int
  started_at : Option Int
  completed_at : Option Int
deriving DecidableEq, Repr

/-- The lock timeout used by `claimNextJob`: 5 minutes in milliseconds
(`new Date(Date.now() - 5 * 60 * 1000)`). -/
def LOCK_TIMEOUT_MS : Int := 5 * 60 * 1000

/-- The claimability filter of `claimNextJob`:
`.or('status.eq.queued,and(status.eq.processing,locked_at.lt.' + lockTimeout)')`
where `lockTimeout = now - 5 minutes`.  A SQL `NULL` `locked_at` fails the
`lt` comparison. -/
def claimable (now : Int) (j : QueuedJob) : Bool :=
  j.status = JobStatus.queued ||
    (j.status = JobStatus.processing &&
      match j.locked_at with
      | some l => decide (l < now - LOCK_TIMEOUT_MS)
      | none => false)

/-- Strict "comes first" order used by `claimNextJob`'s
`.order('priority', descending).order('created_at', ascending)`:
`a` sorts strictly before `b`. -/
def jobBefore (a b : QueuedJob) : Bool :=
  decide (b.priority < a.priority) ||
    (decide (a.priority = b.priority) && decide (a.created_at < b.created_at))

/-- One step of selecting the head of the ordered candidate list: keep the
current best unless the new row sorts strictly before it. -/
def pickStep (best : Option QueuedJob) (j : QueuedJob) : Option QueuedJob :=
  match best with
  | none => some j
  | some b => if jobBefore j b then some j else some b

/-- The row produced by `... .order(...).order(...).limit(1)`: the first
row of the candidate list in the (priority desc, created_at asc) order. -/
def pickBest (l : List QueuedJob) : Option QueuedJob :=
  l.foldl pickStep none

/-- The field writes of `claimNextJob`'s claiming update:
`status = processing`, `worker_id`, `locked_at = now`, `started_at = now`. -/
def claimStamp (now : Int) (workerTag : String) (j0 : QueuedJob) : QueuedJob :=
  { j0 with
      status := JobStatus.processing
      worker_id := some workerTag
      locked_at := some now
      started_at := some now }

/-- `claimNextJob` (src/lib/module-queue.ts).  The store is the list of
rows of `module_queue`.  The conditional update claims the first claimable
row in queue order, stamping it via `claimStamp`; `.select().single()`
returns the updated row (or `null` / error code PGRST116 when nothing
matched, reported as `none`).  A second update then increments `attempts`
on the claimed row; the snapshot already returned to the caller is not
re-read. -/
def claimNextJob (store : List QueuedJob) (now : Int) (workerTag : String) :
    List QueuedJob × Option QueuedJob :=
  match pickBest (store.filter (claimable now)) with
  | none => (store, none)
  | some j0 =>
    let claimedRow : QueuedJob := claimStamp now workerTag j0
    let store1 := store.map fun x => if x.id = j0.id then claimedRow else x
    let store2 := store1.map fun x =>
      if x.id = j0.id then { x with attempts := x.attempts + 1 } else x
    (store2, some claimedRow)

/-- `failJob` (src/lib/module-queue.ts): reads `attempts, max_attempts`
for the row, decides `shouldRetry = attempts < max_attempts`, then updates
the row: back to `queued` with the lease cleared when retries remain,
terminally `failed` with a completion timestamp otherwise.  The error
message written is opaque and not modelled. -/
def failJob (store : List QueuedJob) (jobId : Nat) (now : Int) :
    List QueuedJob :=
  let job := store.find? fun j => j.id = jobId
  let shouldRetry :=
    match job with
    | some j => decide (j.attempts < j.max_attempts)
    | none => false
  store.map fun x =>
    if x.id = jobId then
      { x with
          status := if shouldRetry then JobStatus.queued else JobStatus.failed
          locked_at := none
          worker_id := none
          completed_at := if shouldRetry then none else some now }
    else x

/-! ## Orchestrator store (src/lib/orchestrator.ts, one analysis)

The orchestrator operates on one analysis: its `analyses` row (status and
progress), its `analysis_modules` rows (keyed by module type — the
orchestrator keeps them in a `Map` keyed by `module_type`), and its
`hitl_checkpoints` rows.  `enableHITL` is an orchestrator option
(hard-coded to `true` by the module runner and the API routes). -/

/-- The fields of an `analysis_modules` row read or written by the
orchestration core (`status`, `progress`); payload, timestamps and error
strings are opaque to it. -/
structure ModuleRec where
  status : ModuleStatus
  progress : Nat
deriving DecidableEq, Repr

/-- The fields of a `hitl_checkpoints` row used by the resolve endpoint;
`data_snapshot` is an opaque payload and is omitted. -/
structure CheckpointRec where
  id : Nat
  module_type : ModuleType
  status : CkStatus
  reviewer_id : Option String
  action : Option HITLAction
deriving DecidableEq, Repr

/-- The persisted records of one analysis: its `analyses` row (owner,
selected module list, status, progress), its module rows keyed by module
type, and its checkpoint rows. -/
structure Store where
  userId : String
  selected : List ModuleType
  analysisStatus : AnalysisStatus
  analysisProgress : Int
  mods : ModuleType → Option ModuleRec
  checkpoints : List CheckpointRec

/-- `MODULE_DEPENDENCIES` (src/lib/orchestrator.ts lines 30-41). -/
def MODULE_DEPENDENCIES : ModuleType → List ModuleType
  | ModuleType.financial_modeling => [ModuleType.market_demand]
  | ModuleType.risk_assessment =>
      [ModuleType.market_demand, ModuleType.competitive_intelligence]
  | _ => []

/-- `getModuleStatus` (orchestrator.ts): status of a module from the map,
`null` when the record is missing. -/
def Store.getModuleStatus (st : Store) (t : ModuleType) : Option ModuleStatus :=
  (st.mods t).map (fun m => m.status)

/-- `canExecuteModule` (orchestrator.ts lines 154-170): no dependencies
means executable; `financial_modeling` is special-cased as
`market_demand` OR `revenue_intelligence` completed; otherwise every
listed dependency must be completed. -/
def Store.canExecuteModule (st : Store) (t : ModuleType) : Bool :=
  let deps := MODULE_DEPENDENCIES t
  if deps.isEmpty then true
  else if t = ModuleType.financial_modeling then
    (st.getModuleStatus ModuleType.market_demand = some ModuleStatus.completed : Bool) ||
    (st.getModuleStatus ModuleType.revenue_intelligence = some ModuleStatus.completed : Bool)
  else
    deps.all fun dep =>
      match st.mods dep with
      | some depModule => depModule.status = ModuleStatus.completed
      | none => false

/-- `getReadyModules` (orchestrator.ts lines 183-201): the selected
modules whose status is `pending` or `revision_requested` and whose
dependencies are satisfied. -/
def Store.getReadyModules (st : Store) : List ModuleType :=
  st.selected.filter fun t =>
    ((st.getModuleStatus t = some ModuleStatus.pending : Bool) ||
      (st.getModuleStatus t = some ModuleStatus.revision_requested : Bool)) &&
    st.canExecuteModule t

/-- `isComplete` (orchestrator.ts lines 400-407): every selected module
has status completed, approved or skipped. -/
def Store.isComplete (st : Store) : Bool :=
  st.selected.all fun t =>
    (st.getModuleStatus t = some ModuleStatus.completed : Bool) ||
    (st.getModuleStatus t = some ModuleStatus.approved : Bool) ||
    (st.getModuleStatus t = some ModuleStatus.skipped : Bool)

/-- `isAwaitingHITL` (orchestrator.ts lines 412-418): some selected
module has status `hitl_pending`. -/
def Store.isAwaitingHITL (st : Store) : Bool :=
  st.selected.any fun t =>
    st.getModuleStatus t = some ModuleStatus.hitl_pending

/-- JavaScript `Math.round` on a rational: floor of `q + 1/2` (JavaScript
rounds halves toward positive infinity). -/
def mathRound (q : ℚ) : Int := Int.floor (q + 1/2)

/-- One iteration of the loop of `updateProgress` (orchestrator.ts lines
376-387), on the accumulator pair (`completedWeight`, `inProgressWeight`):
adds 1 for a completed/approved module, `progress / 100` for a running
module, 0.9 for a `hitl_pending` module; skips missing records and every
other status. -/
def progressStep (mods : ModuleType → Option ModuleRec)
    (acc : ℚ × ℚ) (t : ModuleType) : ℚ × ℚ :=
  match mods t with
  | none => acc
  | some m =>
    if m.status = ModuleStatus.completed || m.status = ModuleStatus.approved then
      (acc.1 + 1, acc.2)
    else if m.status = ModuleStatus.running then
      (acc.1, acc.2 + (m.progress : ℚ) / 100)
    else if m.status = ModuleStatus.hitl_pending then
      (acc.1 + 9/10, acc.2)
    else acc

/-- The accumulator loop of `updateProgress` (orchestrator.ts lines
373-387). -/
def progressWeights (selected : List ModuleType)
    (mods : ModuleType → Option ModuleRec) : ℚ × ℚ :=
  selected.foldl (progressStep mods) (0, 0)

/-- The progress value computed by `updateProgress` (orchestrator.ts line
389-391): `Math.round(((completedWeight + inProgressWeight) / totalModules) * 100)`. -/
def progressOf (selected : List ModuleType)
    (mods : ModuleType → Option ModuleRec) : Int :=
  let w := progressWeights selected mods
  mathRound ((w.1 + w.2) / (selected.length : ℚ) * 100)

/-- `updateProgress` (orchestrator.ts lines 367-395): returns 100 without
touching the store when the analysis selects no modules; otherwise
computes the weighted progress and persists it together with status
`running` via `updateAnalysisStatus(analysisId, 'running', progress)`. -/
def updateProgress (st : Store) : Store × Int :=
  if st.selected.length = 0 then (st, 100)
  else
    let p := progressOf st.selected st.mods
    ({ st with analysisStatus := AnalysisStatus.running, analysisProgress := p }, p)

/-- Point update of the module map at one module type. -/
def Store.setModule (st : Store) (t : ModuleType) (r : ModuleRec) : Store :=
  { st with mods := fun u => if u = t then some r else st.mods u }

/-- `executeModule` (orchestrator.ts lines 206-330), with the executor
outcome abstracted to a success bit (the executor, child agents and
synthesis are external collaborators).  Returns `false` without touching
the store when the module record is missing.  Otherwise: marks the module
running at progress 0; on success writes the module as `hitl_pending`
(HITL enabled) or `completed` at progress 100, creates a pending
checkpoint and sets the analysis status to `hitl_pending` when HITL is
enabled; on failure writes the module as `failed` at progress 0. -/
def executeModule (enableHITL : Bool) (st : Store) (t : ModuleType)
    (succ : Bool) : Store × Bool :=
  match st.mods t with
  | none => (st, false)
  | some m =>
    let stRun := st.setModule t { m with status := ModuleStatus.running, progress := 0 }
    if succ then
      let newStatus :=
        if enableHITL then ModuleStatus.hitl_pending else ModuleStatus.completed
      let st1 := stRun.setModule t { status := newStatus, progress := 100 }
      if enableHITL then
        let ck : CheckpointRec :=
          { id := st1.checkpoints.length
            module_type := t
            status := CkStatus.pending
            reviewer_id := none
            action := none }
        ({ st1 with
            checkpoints := st1.checkpoints ++ [ck]
            analysisStatus := AnalysisStatus.hitl_pending }, true)
      else (st1, true)
    else
      (stRun.setModule t { m with status := ModuleStatus.failed, progress := 0 }, false)

/-- `finalize` (orchestrator.ts lines 423-472): synthesis, evidence
storage and credit deduction are external; the record-store effect is
`updateAnalysisStatus(analysisId, 'completed')`. -/
def finalize (st : Store) : Store :=
  { st with analysisStatus := AnalysisStatus.completed }

/-! ## Module runner (src/lib/module-runner.ts) -/

/-- `RunnerResult` (module-runner.ts lines 53-61). -/
structure RunnerResult where
  success : Bool
  modulesExecuted : List ModuleType
  modulesFailed : List ModuleType
  isComplete : Bool
  isAwaitingHITL : Bool
  progress : Int
deriving DecidableEq, Repr

/-- The execution loop of `runAnalysisModules`: run `executeModule` for
each ready module, collecting the executed / failed lists.  The parallel
(`Promise.allSettled`) and sequential variants both apply every
per-module record write exactly once; the writes of distinct modules are
to distinct records, so the sequential fold is their common record-store
effect. -/
def execLoop (enableHITL : Bool) (outcome : ModuleType → Bool)
    (init : Store) (ready : List ModuleType) :
    Store × List ModuleType × List ModuleType :=
  ready.foldl
    (fun acc t =>
      let r := executeModule enableHITL acc.1 t (outcome t)
      (r.1,
        if r.2 then acc.2.1 ++ [t] else acc.2.1,
        if r.2 then acc.2.2 else acc.2.2 ++ [t]))
    (init, [], [])

/-- `runAnalysisModules` (module-runner.ts lines 66-171), with the module
executors abstracted to a success bit per module type and the
orchestrator options of the source call site (`enableHITL: true` is
hard-coded there; it is a parameter here so the claims can name it).
If no module is ready, the runner calls `updateProgress` and returns the
classification; otherwise it executes the ready modules, calls
`updateProgress`, reads the classification and finalizes the analysis
when it is complete. -/
def runAnalysisModules (enableHITL : Bool) (st : Store)
    (outcome : ModuleType → Bool) : Store × RunnerResult :=
  let ready := st.getReadyModules
  if ready.isEmpty then
    let up := updateProgress st
    (up.1,
      { success := true
        modulesExecuted := []
        modulesFailed := []
        isComplete := st.isComplete
        isAwaitingHITL := st.isAwaitingHITL
        progress := up.2 })
  else
    let ex := execLoop enableHITL outcome st ready
    let up := updateProgress ex.1
    let ic := up.1.isComplete
    let ih := up.1.isAwaitingHITL
    let final := if ic then finalize up.1 else up.1
    (final,
      { success := ex.2.2.isEmpty
        modulesExecuted := ex.2.1
        modulesFailed := ex.2.2
        isComplete := ic
        isAwaitingHITL := ih
        progress := up.2 })

/-! ## HITL checkpoint resolution (api/hitl/checkpoints/[id]/resolve.ts) -/

/-- The error responses of the resolve endpoint that precede any record
write. -/
inductive ResolveError
  | notFound
  | forbidden
  | alreadyResolved
deriving DecidableEq, Repr

/-- `updateModuleStatus` (src/lib/supabase.ts lines 206-224) restricted to
the fields in the model: sets status and progress on the module row when
it exists (the conditional update of a missing row writes nothing). -/
def updateModuleStatusStore (st : Store) (t : ModuleType)
    (status : ModuleStatus) (progress : Nat) : Store :=
  match st.mods t with
  | none => st
  | some _ => st.setModule t { status := status, progress := progress }

/-- The checkpoint status written by `resolveHITLCheckpoint`
(src/lib/supabase.ts lines 296-297). -/
def resolvedStatus (action : HITLAction) : CkStatus :=
  match action with
  | HITLAction.reject => CkStatus.rejected
  | HITLAction.request_revision => CkStatus.revision_requested
  | _ => CkStatus.approved

/-- The resolve endpoint handler (resolve.ts lines 46-130), for a request
whose body passed validation with `checkpoint_id` matching the path.
Order of the source: look the checkpoint up (404 when missing), check the
caller owns the analysis (403), reject non-pending checkpoints with
"Checkpoint is already resolved" (400) — all before any write.  Then
`resolveHITLCheckpoint` stamps the checkpoint, and the per-action block
sets the module row and, for approvals and rejections, invokes
`continueAfterHITL = runAnalysisModules` as the continuation. -/
def resolveHandler (st : Store) (cid : Nat) (uid : String)
    (action : HITLAction) (outcome : ModuleType → Bool) :
    Store × Except ResolveError (CheckpointRec × Option RunnerResult) :=
  match st.checkpoints.find? (fun c => c.id = cid) with
  | none => (st, Except.error ResolveError.notFound)
  | some ck =>
    if st.userId ≠ uid then (st, Except.error ResolveError.forbidden)
    else if ck.status ≠ CkStatus.pending then
      (st, Except.error ResolveError.alreadyResolved)
    else
      let ck' : CheckpointRec :=
        { ck with
            status := resolvedStatus action
            reviewer_id := some uid
            action := some action }
      let st1 : Store :=
        { st with
            checkpoints := st.checkpoints.map fun c => if c.id = cid then ck' else c }
      match action with
      | HITLAction.approve_all | HITLAction.approve_selected =>
        let st2 := updateModuleStatusStore st1 ck.module_type ModuleStatus.completed 100
        let r := runAnalysisModules true st2 outcome
        (r.1, Except.ok (ck', some r.2))
      | HITLAction.request_revision =>
        (updateModuleStatusStore st1 ck.module_type ModuleStatus.revision_requested 50,
          Except.ok (ck', none))
      | HITLAction.reject =>
        let st2 := updateModuleStatusStore st1 ck.module_type ModuleStatus.skipped 100
        let r := runAnalysisModules true st2 outcome
        (r.1, Except.ok (ck', some r.2))

/-! ## Queue lemmas and claims C6, C7, C10 -/

lemma jobBefore_irrefl (a : QueuedJob) : jobBefore a a = false := by
  simp [jobBefore]

lemma jobBefore_shift (j b r : QueuedJob) (h1 : jobBefore j b = true)
    (h2 : jobBefore j r = false) : jobBefore b r = false := by
  simp only [jobBefore, Bool.or_eq_true, Bool.and_eq_true, decide_eq_true_eq,
    Bool.or_eq_false_iff, Bool.and_eq_false_iff, decide_eq_false_iff_not] at *
  rcases h1 with h | ⟨h, h'⟩ <;> rcases h2 with ⟨h2a, h2b⟩ <;>
    constructor <;> omega

lemma jobBefore_shift2 (j b r : QueuedJob) (h1 : jobBefore j b = false)
    (h2 : jobBefore b r = false) : jobBefore j r = false := by
  simp only [jobBefore, Bool.or_eq_true, Bool.and_eq_true, decide_eq_true_eq,
    Bool.or_eq_false_iff, Bool.and_eq_false_iff, decide_eq_false_iff_not] at *
  obtain ⟨h1a, h1b⟩ := h1
  obtain ⟨h2a, h2b⟩ := h2
  constructor
  · omega
  · rcases h1b with h | h <;> rcases h2b with h' | h' <;> omega

lemma foldl_pickStep_spec (l : List QueuedJob) (b : QueuedJob) :
    ∃ r, l.foldl pickStep (some b) = some r ∧ (r = b ∨ r ∈ l) ∧
      jobBefore b r = false ∧ ∀ c ∈ l, jobBefore c r = false := by
  induction l generalizing b with
  | nil => exact ⟨b, rfl, Or.inl rfl, jobBefore_irrefl b, by simp⟩
  | cons j rest ih =>
    by_cases h : jobBefore j b = true
    · obtain ⟨r, hr, hmem, hjr, hall⟩ := ih j
      refine ⟨r, ?_, ?_, ?_, ?_⟩
      · simpa [pickStep, h] using hr
      · rcases hmem with h' | h' <;> simp [h']
      · exact jobBefore_shift j b r h hjr
      · intro c hc
        rcases List.mem_cons.mp hc with h' | h'
        · exact h' ▸ hjr
        · exact hall c h'
    · rw [Bool.not_eq_true] at h
      obtain ⟨r, hr, hmem, hbr, hall⟩ := ih b
      refine ⟨r, ?_, ?_, hbr, ?_⟩
      · simpa [pickStep, h] using hr
      · rcases hmem with h' | h' <;> simp [h']
      · intro c hc
        rcases List.mem_cons.mp hc with h' | h'
        · exact h' ▸ jobBefore_shift2 j b r h hbr
        · exact hall c h'

lemma pickBest_spec (l : List QueuedJob) (j : QueuedJob)
    (h : pickBest l = some j) : j ∈ l ∧ ∀ c ∈ l, jobBefore c j = false := by
  match l with
  | [] => simp [pickBest] at h
  | b :: rest =>
    have hb : pickBest (b :: rest) = rest.foldl pickStep (some b) := by
      simp [pickBest, pickStep]
    rw [hb] at h
    obtain ⟨r, hr, hmem, hbr, hall⟩ := foldl_pickStep_spec rest b
    rw [hr] at h
    obtain rfl : r = j := by injection h
    refine ⟨?_, ?_⟩
    · rcases hmem with h' | h' <;> simp [h']
    · intro c hc
      rcases List.mem_cons.mp hc with h' | h'
      · exact h' ▸ hbr
      · exact hall c h'

lemma pickBest_none (l : List QueuedJob) : pickBest l = none ↔ l = [] := by
  match l with
  | [] => simp [pickBest]
  | b :: rest =>
    have hb : pickBest (b :: rest) = rest.foldl pickStep (some b) := by
      simp [pickBest, pickStep]
    obtain ⟨r, hr, _, _, _⟩ := foldl_pickStep_spec rest b
    simp [hb, hr]

/-- Core specification of a successful `claimNextJob`. -/
lemma claimNextJob_some_spec (store : List QueuedJob) (now : Int) (w : String)
    (j : QueuedJob) (h : (claimNextJob store now w).2 = some j) :
    ∃ j0 ∈ store, claimable now j0 = true ∧
      (∀ c ∈ store, claimable now c = true → jobBefore c j0 = false) ∧
      j = claimStamp now w j0 ∧
      { claimStamp now w j0 with attempts := j0.attempts + 1 } ∈
        (claimNextJob store now w).1 := by
  cases hp : pickBest (store.filter (claimable now)) with
  | none =>
    have hrun : claimNextJob store now w = (store, none) := by
      unfold claimNextJob; rw [hp]
    rw [hrun] at h; simp at h
  | some j0 =>
    have hrun : claimNextJob store now w =
        ((store.map fun x => if x.id = j0.id then claimStamp now w j0 else x).map
           (fun x => if x.id = j0.id then { x with attempts := x.attempts + 1 } else x),
         some (claimStamp now w j0)) := by
      unfold claimNextJob; rw [hp]
    obtain ⟨hmem, hbest⟩ := pickBest_spec _ _ hp
    have hj0 : j0 ∈ store := (List.mem_filter.mp hmem).1
    have hcl : claimable now j0 = true := (List.mem_filter.mp hmem).2
    refine ⟨j0, hj0, hcl, ?_, ?_, ?_⟩
    · intro c hc hcc
      exact hbest c (List.mem_filter.mpr ⟨hc, hcc⟩)
    · rw [hrun] at h
      injection h with h'; exact h'.symm
    · rw [hrun]
      simp only
      refine List.mem_map.mpr ⟨claimStamp now w j0, List.mem_map.mpr ⟨j0, hj0, by simp⟩, ?_⟩
      simp [claimStamp]

/-- `claimNextJob` on a store with nothing claimable: no-op, returns none. -/
lemma claimNextJob_none_spec (store : List QueuedJob) (now : Int) (w : String)
    (h : ∀ c ∈ store, claimable now c = false) :
    claimNextJob store now w = (store, none) := by
  have hf : store.filter (claimable now) = [] := by
    rw [List.filter_eq_nil_iff]
    intro a ha
    simp [h a ha]
  unfold claimNextJob
  rw [hf]
  rfl

/-- C6: `claimNextJob` returns none and leaves the store untouched when
no entry is claimable; and any entry it returns corresponds to a stored
entry that was claimable (queued, or processing with a lease older than
the 5-minute staleness threshold), was first in the
(priority descending, creation ascending) order among all claimable
entries, and is returned stamped as processing with the claiming worker's
identity and lease timestamp, while the persisted row additionally
carries the incremented attempt count. -/
theorem claimNextJob_correct (store : List QueuedJob) (now : Int) (w : String) :
    ((∀ c ∈ store, claimable now c = false) →
        claimNextJob store now w = (store, none)) ∧
    (∀ j, (claimNextJob store now w).2 = some j →
      ∃ j0 ∈ store, claimable now j0 = true ∧
        (∀ c ∈ store, claimable now c = true → jobBefore c j0 = false) ∧
        j = claimStamp now w j0 ∧
        { claimStamp now w j0 with attempts := j0.attempts + 1 } ∈
          (claimNextJob store now w).1) := by
  exact ⟨claimNextJob_none_spec store now w,
    fun j h => claimNextJob_some_spec store now w j h⟩

def wjob1 : QueuedJob :=
  { id := 1, status := JobStatus.queued, priority := 100, attempts := 0,
    max_attempts := 3, worker_id := none, locked_at := none,
    created_at := 10, started_at := none, completed_at := none }

def wjob2 : QueuedJob :=
  { id := 2, status := JobStatus.queued, priority := 50, attempts := 0,
    max_attempts := 3, worker_id := none, locked_at := none,
    created_at := 5, started_at := none, completed_at := none }

def wjob3 : QueuedJob :=
  { id := 3, status := JobStatus.completed, priority := 200, attempts := 1,
    max_attempts := 3, worker_id := none, locked_at := none,
    created_at := 1, started_at := none, completed_at := some 9 }

theorem claimNextJob_correct_witness :
    (∀ c ∈ [wjob3], claimable 1000 c = false) ∧
      claimNextJob [wjob3] 1000 "w1" = ([wjob3], none) ∧
      (claimNextJob [wjob1, wjob2, wjob3] 1000 "w1").2 = some (claimStamp 1000 "w1" wjob1) ∧
      (∃ j0 ∈ [wjob1, wjob2, wjob3], claimable 1000 j0 = true ∧
        (∀ c ∈ [wjob1, wjob2, wjob3], claimable 1000 c = true → jobBefore c j0 = false) ∧
        claimStamp 1000 "w1" wjob1 = claimStamp 1000 "w1" j0 ∧
        { claimStamp 1000 "w1" j0 with attempts := j0.attempts + 1 } ∈
          (claimNextJob [wjob1, wjob2, wjob3] 1000 "w1").1) := by
  refine ⟨by decide, ?_, ?_, ?_⟩
  · exact (claimNextJob_correct [wjob3] 1000 "w1").1 (by decide)
  · decide
  · exact (claimNextJob_correct [wjob1, wjob2, wjob3] 1000 "w1").2
      (claimStamp 1000 "w1" wjob1) (by decide)

/-- C10: the queue entry snapshot returned by a successful
`claimNextJob` carries the pre-claim attempt count: the attempts
increment is a separate second write, so the persisted row with the same
id holds `attempts + 1` relative to the returned snapshot. -/
theorem claimNextJob_returns_preincrement (store : List QueuedJob) (now : Int)
    (w : String) (j : QueuedJob) (h : (claimNextJob store now w).2 = some j) :
    ∃ j0 ∈ store, j = claimStamp now w j0 ∧ j.attempts = j0.attempts ∧
      ∃ j1 ∈ (claimNextJob store now w).1,
        j1.id = j.id ∧ j1.attempts = j.attempts + 1 := by
  obtain ⟨j0, hj0, _, _, hj, hmem⟩ := claimNextJob_some_spec store now w j h
  refine ⟨j0, hj0, hj, by simp [hj, claimStamp], ?_⟩
  refine ⟨{ claimStamp now w j0 with attempts := j0.attempts + 1 }, hmem, ?_, ?_⟩
  · simp [hj, claimStamp]
  · simp [hj, claimStamp]

theorem claimNextJob_returns_preincrement_witness :
    (claimNextJob [wjob1] 1000 "w1").2 = some (claimStamp 1000 "w1" wjob1) ∧
    (∃ j0 ∈ [wjob1], claimStamp 1000 "w1" wjob1 = claimStamp 1000 "w1" j0 ∧
      (claimStamp 1000 "w1" wjob1).attempts = j0.attempts ∧
      ∃ j1 ∈ (claimNextJob [wjob1] 1000 "w1").1,
        j1.id = (claimStamp 1000 "w1" wjob1).id ∧
        j1.attempts = (claimStamp 1000 "w1" wjob1).attempts + 1) := by
  refine ⟨by decide, ?_⟩
  exact claimNextJob_returns_preincrement [wjob1] 1000 "w1"
    (claimStamp 1000 "w1" wjob1) (by decide)

/-- C7: `failJob` on an entry with attempts strictly below
`max_attempts` re-queues it with the lease cleared (worker and lease
timestamp null, no completion timestamp), leaving it claimable at any
time; once attempts equals `max_attempts` it marks the entry terminally
failed with a completion timestamp, and a failed entry is claimable at
no time. -/
theorem failJob_correct (store : List QueuedJob) (jobId : Nat) (now : Int)
    (j0 : QueuedJob) (hfind : store.find? (fun j => j.id = jobId) = some j0) :
    (j0.attempts < j0.max_attempts →
      ∃ j1 ∈ failJob store jobId now, j1.id = jobId ∧
        j1.status = JobStatus.queued ∧ j1.worker_id = none ∧
        j1.locked_at = none ∧ j1.completed_at = none ∧
        ∀ t : Int, claimable t j1 = true) ∧
    (j0.attempts = j0.max_attempts →
      ∃ j1 ∈ failJob store jobId now, j1.id = jobId ∧
        j1.status = JobStatus.failed ∧ j1.worker_id = none ∧
        j1.locked_at = none ∧ j1.completed_at = some now ∧
        ∀ t : Int, claimable t j1 = false) := by
  have hj0mem : j0 ∈ store := List.mem_of_find?_eq_some hfind
  have hid : j0.id = jobId := by
    have := List.find?_some hfind
    simpa using this
  constructor
  · intro hlt
    refine ⟨_, List.mem_map_of_mem _ hj0mem, ?_⟩
    simp only [hfind]
    simp [hid, hlt, claimable]
  · intro heq
    have hnlt : ¬ j0.attempts < j0.max_attempts := by omega
    refine ⟨_, List.mem_map_of_mem _ hj0mem, ?_⟩
    simp only [hfind]
    simp [hid, hnlt, claimable]

def wjob4 : QueuedJob :=
  { id := 4, status := JobStatus.processing, priority := 100, attempts := 1,
    max_attempts := 3, worker_id := some "w0", locked_at := some 0,
    created_at := 0, started_at := some 0, completed_at := none }

def wjob5 : QueuedJob :=
  { id := 5, status := JobStatus.processing, priority := 100, attempts := 3,
    max_attempts := 3, worker_id := some "w0", locked_at := some 0,
    created_at := 0, started_at := some 0, completed_at := none }

theorem failJob_correct_witness :
    ([wjob4].find? (fun j => j.id = 4) = some wjob4 ∧
      wjob4.attempts < wjob4.max_attempts ∧
      ∃ j1 ∈ failJob [wjob4] 4 2000, j1.id = 4 ∧
        j1.status = JobStatus.queued ∧ j1.worker_id = none ∧
        j1.locked_at = none ∧ j1.completed_at = none ∧
        ∀ t : Int, claimable t j1 = true) ∧
    ([wjob5].find? (fun j => j.id = 5) = some wjob5 ∧
      wjob5.attempts = wjob5.max_attempts ∧
      ∃ j1 ∈ failJob [wjob5] 5 2000, j1.id = 5 ∧
        j1.status = JobStatus.failed ∧ j1.worker_id = none ∧
        j1.locked_at = none ∧ j1.completed_at = some 2000 ∧
        ∀ t : Int, claimable t j1 = false) := by
  constructor
  · exact ⟨by decide, by decide,
      (failJob_correct [wjob4] 4 2000 wjob4 (by decide)).1 (by decide)⟩
  · exact ⟨by decide, by decide,
      (failJob_correct [wjob5] 5 2000 wjob5 (by decide)).2 (by decide)⟩

/-! ## Progress accounting: claim C8

`specWeight`/`specProgress` restate the specification's formula
(`progress(workflow) = round(100 * sum of weight(unit) / unitCount)`) for
comparison with the accumulator loop of `updateProgress`. -/

/-- The per-unit weight exactly as the specification words it: 1.0 for
completed/approved, 0.9 for awaiting-review, `unit.progress / 100` for
running, and 0 otherwise (including a missing record). -/
def specWeight (mods : ModuleType → Option ModuleRec) (t : ModuleType) : ℚ :=
  match mods t with
  | none => 0
  | some m =>
    match m.status with
    | ModuleStatus.completed => 1
    | ModuleStatus.approved => 1
    | ModuleStatus.hitl_pending => 9/10
    | ModuleStatus.running => (m.progress : ℚ) / 100
    | _ => 0

/-- The specification's progress formula:
`round(100 * sum of weights / unit count)`. -/
def specProgress (selected : List ModuleType)
    (mods : ModuleType → Option ModuleRec) : Int :=
  mathRound (100 * (selected.map (specWeight mods)).sum / (selected.length : ℚ))

lemma progressStep_sum (mods : ModuleType → Option ModuleRec)
    (a : ℚ × ℚ) (t : ModuleType) :
    (progressStep mods a t).1 + (progressStep mods a t).2 =
      a.1 + a.2 + specWeight mods t := by
  rcases h : mods t with _ | m
  · simp [progressStep, specWeight, h]
  · cases hs : m.status <;> simp [progressStep, specWeight, h, hs] <;> ring

lemma foldl_progressStep_sum (mods : ModuleType → Option ModuleRec)
    (l : List ModuleType) (a : ℚ × ℚ) :
    (l.foldl (progressStep mods) a).1 + (l.foldl (progressStep mods) a).2 =
      a.1 + a.2 + (l.map (specWeight mods)).sum := by
  induction l generalizing a with
  | nil => simp
  | cons t rest ih =>
    rw [List.foldl_cons, ih (progressStep mods a t), List.map_cons, List.sum_cons,
      progressStep_sum]
    ring

lemma progressWeights_sum (selected : List ModuleType)
    (mods : ModuleType → Option ModuleRec) :
    (progressWeights selected mods).1 + (progressWeights selected mods).2 =
      (selected.map (specWeight mods)).sum := by
  unfold progressWeights
  rw [foldl_progressStep_sum]
  simp

lemma progressOf_eq_specProgress (selected : List ModuleType)
    (mods : ModuleType → Option ModuleRec) :
    progressOf selected mods = specProgress selected mods := by
  show mathRound (((progressWeights selected mods).1 + (progressWeights selected mods).2) /
      (selected.length : ℚ) * 100) = _
  rw [progressWeights_sum, div_mul_eq_mul_div, mul_comm]
  rfl

/-- C8: for every analysis with at least one selected module, the progress
persisted by `updateProgress` equals the specification's formula
`round(100 * sum of unit weights / unit count)` with weight 1 for
completed/approved, 0.9 for awaiting review, `progress / 100` for
running, and 0 otherwise. -/
theorem updateProgress_matches_spec (st : Store) (h : st.selected ≠ []) :
    (updateProgress st).2 = specProgress st.selected st.mods ∧
      (updateProgress st).1.analysisProgress = specProgress st.selected st.mods := by
  have hlen : ¬ st.selected.length = 0 := by
    simpa [List.length_eq_zero] using h
  unfold updateProgress
  rw [if_neg hlen]
  exact ⟨progressOf_eq_specProgress _ _, progressOf_eq_specProgress _ _⟩

def wmods8 : ModuleType → Option ModuleRec
  | ModuleType.market_demand => some ⟨ModuleStatus.completed, 100⟩
  | ModuleType.revenue_intelligence => some ⟨ModuleStatus.hitl_pending, 100⟩
  | _ => none

def wst8 : Store :=
  { userId := "owner8"
    selected := [ModuleType.market_demand, ModuleType.revenue_intelligence]
    analysisStatus := AnalysisStatus.running
    analysisProgress := 0
    mods := wmods8
    checkpoints := [] }

theorem updateProgress_matches_spec_witness :
    wst8.selected ≠ [] ∧
      ((updateProgress wst8).2 = specProgress wst8.selected wst8.mods ∧
        (updateProgress wst8).1.analysisProgress =
          specProgress wst8.selected wst8.mods) ∧
      specProgress wst8.selected wst8.mods = 95 := by
  refine ⟨by decide, updateProgress_matches_spec wst8 (by decide), ?_⟩
  simp +decide [specProgress, specWeight, wst8, wmods8, mathRound]
  norm_num

/-! ## Readiness Engine: claim C5 -/

/-- C5: a selected `financial_modeling` module is reported ready by
`getReadyModules` exactly when its status is pending or
revision-requested and at least one of `market_demand` /
`revenue_intelligence` is completed (the other alternative may still be
pending); a selected `risk_assessment` module is ready exactly when its
status is pending or revision-requested and both `market_demand` and
`competitive_intelligence` are completed. -/
theorem readiness_disjunctive_and_conjunctive (st : Store) :
    (ModuleType.financial_modeling ∈ st.getReadyModules ↔
      (ModuleType.financial_modeling ∈ st.selected ∧
        (st.getModuleStatus ModuleType.financial_modeling = some ModuleStatus.pending ∨
          st.getModuleStatus ModuleType.financial_modeling =
            some ModuleStatus.revision_requested) ∧
        (st.getModuleStatus ModuleType.market_demand = some ModuleStatus.completed ∨
          st.getModuleStatus ModuleType.revenue_intelligence =
            some ModuleStatus.completed))) ∧
    (ModuleType.risk_assessment ∈ st.getReadyModules ↔
      (ModuleType.risk_assessment ∈ st.selected ∧
        (st.getModuleStatus ModuleType.risk_assessment = some ModuleStatus.pending ∨
          st.getModuleStatus ModuleType.risk_assessment =
            some ModuleStatus.revision_requested) ∧
        (st.getModuleStatus ModuleType.market_demand = some ModuleStatus.completed ∧
          st.getModuleStatus ModuleType.competitive_intelligence =
            some ModuleStatus.completed))) := by
  have hdep : ∀ t, (match st.mods t with
      | some depModule => decide (depModule.status = ModuleStatus.completed)
      | none => false) = decide (st.getModuleStatus t = some ModuleStatus.completed) := by
    intro t
    rcases h : st.mods t with _ | m <;> simp [Store.getModuleStatus, h]
  constructor <;>
    · rw [Store.getReadyModules, List.mem_filter]
      simp [Store.canExecuteModule, MODULE_DEPENDENCIES, hdep, and_assoc]

/-! ## Execution driver lemmas -/

/-- The store component of `execLoop` is the fold of `executeModule`'s
store effect over the ready list. -/
def execStores (enableHITL : Bool) (outcome : ModuleType → Bool)
    (st : Store) (l : List ModuleType) : Store :=
  l.foldl (fun s t => (executeModule enableHITL s t (outcome t)).1) st

lemma execLoop_fst (enableHITL : Bool) (outcome : ModuleType → Bool)
    (st : Store) (l : List ModuleType) :
    (execLoop enableHITL outcome st l).1 = execStores enableHITL outcome st l := by
  suffices h : ∀ (l : List ModuleType) (st : Store) (ex fl : List ModuleType),
      (l.foldl (fun acc t =>
        let r := executeModule enableHITL acc.1 t (outcome t)
        (r.1,
          if r.2 then acc.2.1 ++ [t] else acc.2.1,
          if r.2 then acc.2.2 else acc.2.2 ++ [t]))
        (st, ex, fl)).1 = execStores enableHITL outcome st l by
    exact h l st [] []
  intro l
  induction l with
  | nil => intro st ex fl; rfl
  | cons t rest ih =>
    intro st ex fl
    rw [List.foldl_cons]
    exact ih _ _ _

lemma executeModule_selected (e : Bool) (st : Store) (t : ModuleType) (b : Bool) :
    (executeModule e st t b).1.selected = st.selected := by
  unfold executeModule
  rcases st.mods t with _ | m
  · rfl
  · cases b <;> cases e <;> rfl

lemma executeModule_userId (e : Bool) (st : Store) (t : ModuleType) (b : Bool) :
    (executeModule e st t b).1.userId = st.userId := by
  unfold executeModule
  rcases st.mods t with _ | m
  · rfl
  · cases b <;> cases e <;> rfl

lemma executeModule_mods_ne (e : Bool) (st : Store) (t u : ModuleType) (b : Bool)
    (h : u ≠ t) : (executeModule e st t b).1.mods u = st.mods u := by
  unfold executeModule
  rcases st.mods t with _ | m
  · rfl
  · cases b <;> cases e <;> simp [Store.setModule, h]

lemma executeModule_mods_success (st : Store) (t : ModuleType)
    (h : (st.mods t).isSome) :
    (executeModule true st t true).1.mods t =
      some { status := ModuleStatus.hitl_pending, progress := 100 } := by
  unfold executeModule
  rcases hm : st.mods t with _ | m
  · rw [hm] at h; simp at h
  · simp [Store.setModule]

lemma execStores_nil (e : Bool) (o : ModuleType → Bool) (st : Store) :
    execStores e o st [] = st := rfl

lemma execStores_cons (e : Bool) (o : ModuleType → Bool) (st : Store)
    (u : ModuleType) (rest : List ModuleType) :
    execStores e o st (u :: rest) =
      execStores e o (executeModule e st u (o u)).1 rest := by
  unfold execStores
  rw [List.foldl_cons]

lemma execStores_selected (e : Bool) (o : ModuleType → Bool)
    (st : Store) (l : List ModuleType) :
    (execStores e o st l).selected = st.selected := by
  induction l generalizing st with
  | nil => rfl
  | cons t rest ih =>
    rw [execStores_cons, ih]
    exact executeModule_selected e st t (o t)

lemma execStores_userId (e : Bool) (o : ModuleType → Bool)
    (st : Store) (l : List ModuleType) :
    (execStores e o st l).userId = st.userId := by
  induction l generalizing st with
  | nil => rfl
  | cons t rest ih =>
    rw [execStores_cons, ih]
    exact executeModule_userId e st t (o t)

lemma execStores_mods_notMem (e : Bool) (o : ModuleType → Bool)
    (st : Store) (l : List ModuleType) (t : ModuleType) (h : t ∉ l) :
    (execStores e o st l).mods t = st.mods t := by
  induction l generalizing st with
  | nil => rfl
  | cons u rest ih =>
    rw [execStores_cons, ih _ (fun hc => h (List.mem_cons_of_mem u hc))]
    exact executeModule_mods_ne e st u t (o u) (fun he => h (he ▸ List.mem_cons_self u rest))

lemma execStores_mods_success (o : ModuleType → Bool)
    (st : Store) (l : List ModuleType) (t : ModuleType)
    (hmem : t ∈ l) (ho : o t = true) (hsome : (st.mods t).isSome) :
    (execStores true o st l).mods t =
      some { status := ModuleStatus.hitl_pending, progress := 100 } := by
  induction l generalizing st with
  | nil => simp at hmem
  | cons u rest ih =>
    rw [execStores_cons]
    by_cases hu : t = u
    · subst hu
      rw [ho]
      by_cases hr : t ∈ rest
      · exact ih _ hr (by rw [executeModule_mods_success st t hsome]; rfl)
      · rw [execStores_mods_notMem _ _ _ _ _ hr]
        exact executeModule_mods_success st t hsome
    · rcases List.mem_cons.mp hmem with h | h
      · exact absurd h hu
      · exact ih _ h (by rw [executeModule_mods_ne _ _ _ _ _ hu]; exact hsome)

lemma updateProgress_mods (st : Store) : (updateProgress st).1.mods = st.mods := by
  unfold updateProgress
  by_cases h : st.selected.length = 0 <;> simp [h]

lemma updateProgress_selected (st : Store) :
    (updateProgress st).1.selected = st.selected := by
  unfold updateProgress
  by_cases h : st.selected.length = 0 <;> simp [h]

lemma updateProgress_checkpoints (st : Store) :
    (updateProgress st).1.checkpoints = st.checkpoints := by
  unfold updateProgress
  by_cases h : st.selected.length = 0 <;> simp [h]

lemma updateProgress_status (st : Store) (h : st.selected ≠ []) :
    (updateProgress st).1.analysisStatus = AnalysisStatus.running := by
  have hlen : ¬ st.selected.length = 0 := by
    simpa [List.length_eq_zero] using h
  unfold updateProgress
  rw [if_neg hlen]

lemma isComplete_congr (st1 st2 : Store) (hsel : st1.selected = st2.selected)
    (hmods : st1.mods = st2.mods) : st1.isComplete = st2.isComplete := by
  unfold Store.isComplete Store.getModuleStatus
  rw [hsel, hmods]

lemma isAwaitingHITL_congr (st1 st2 : Store) (hsel : st1.selected = st2.selected)
    (hmods : st1.mods = st2.mods) : st1.isAwaitingHITL = st2.isAwaitingHITL := by
  unfold Store.isAwaitingHITL Store.getModuleStatus
  rw [hsel, hmods]

/-! ## Claim C1: advance on an all-terminal workflow -/

lemma getReadyModules_empty_of_terminal (st : Store)
    (hterm : ∀ t ∈ st.selected,
      st.getModuleStatus t = some ModuleStatus.completed ∨
      st.getModuleStatus t = some ModuleStatus.approved ∨
      st.getModuleStatus t = some ModuleStatus.skipped ∨
      st.getModuleStatus t = some ModuleStatus.failed) :
    st.getReadyModules = [] := by
  rw [Store.getReadyModules, List.filter_eq_nil_iff]
  intro t ht
  rcases hterm t ht with h | h | h | h <;> simp [h]

lemma runAnalysisModules_empty_ready (st : Store) (outcome : ModuleType → Bool)
    (e : Bool) (hready : st.getReadyModules = []) :
    runAnalysisModules e st outcome =
      ((updateProgress st).1,
        { success := true
          modulesExecuted := []
          modulesFailed := []
          isComplete := st.isComplete
          isAwaitingHITL := st.isAwaitingHITL
          progress := (updateProgress st).2 }) := by
  simp only [runAnalysisModules, hready, List.isEmpty_nil, if_true]

/-- C1 (amended): when every unit of a non-empty workflow is terminal
(completed, approved, skipped or failed), `runAnalysisModules` finds no
ready module, executes nothing, classifies the workflow as complete
exactly when no unit is `failed`, and leaves the workflow record with
status `running` (the empty-ready branch never calls `finalize`, so the
record is not marked completed). -/
theorem advance_all_terminal (st : Store) (outcome : ModuleType → Bool)
    (hsel : st.selected ≠ [])
    (hterm : ∀ t ∈ st.selected,
      st.getModuleStatus t = some ModuleStatus.completed ∨
      st.getModuleStatus t = some ModuleStatus.approved ∨
      st.getModuleStatus t = some ModuleStatus.skipped ∨
      st.getModuleStatus t = some ModuleStatus.failed) :
    st.getReadyModules = [] ∧
    (runAnalysisModules true st outcome).2.modulesExecuted = [] ∧
    ((runAnalysisModules true st outcome).2.isComplete = true ↔
      ∀ t ∈ st.selected, st.getModuleStatus t ≠ some ModuleStatus.failed) ∧
    (runAnalysisModules true st outcome).1.analysisStatus = AnalysisStatus.running := by
  have hready := getReadyModules_empty_of_terminal st hterm
  rw [runAnalysisModules_empty_ready st outcome true hready]
  refine ⟨hready, rfl, ?_, updateProgress_status st hsel⟩
  show st.isComplete = true ↔ _
  rw [Store.isComplete, List.all_eq_true]
  constructor
  · intro h t ht
    have := h t ht
    simp only [Bool.or_eq_true, decide_eq_true_eq] at this
    rcases this with (h' | h') | h' <;> simp [h']
  · intro h t ht
    have hne := h t ht
    simp only [Bool.or_eq_true, decide_eq_true_eq]
    rcases hterm t ht with h' | h' | h' | h'
    · exact Or.inl (Or.inl h')
    · exact Or.inl (Or.inr h')
    · exact Or.inr h'
    · exact absurd h' hne

def w1mods : ModuleType → Option ModuleRec
  | ModuleType.market_demand => some ⟨ModuleStatus.completed, 100⟩
  | ModuleType.social_sentiment => some ⟨ModuleStatus.skipped, 100⟩
  | _ => none

def w1st : Store :=
  { userId := "owner1"
    selected := [ModuleType.market_demand, ModuleType.social_sentiment]
    analysisStatus := AnalysisStatus.running
    analysisProgress := 50
    mods := w1mods
    checkpoints := [] }

theorem advance_all_terminal_witness :
    w1st.selected ≠ [] ∧
    (∀ t ∈ w1st.selected,
      w1st.getModuleStatus t = some ModuleStatus.completed ∨
      w1st.getModuleStatus t = some ModuleStatus.approved ∨
      w1st.getModuleStatus t = some ModuleStatus.skipped ∨
      w1st.getModuleStatus t = some ModuleStatus.failed) ∧
    (w1st.getReadyModules = [] ∧
      (runAnalysisModules true w1st (fun _ => true)).2.modulesExecuted = [] ∧
      ((runAnalysisModules true w1st (fun _ => true)).2.isComplete = true ↔
        ∀ t ∈ w1st.selected,
          w1st.getModuleStatus t ≠ some ModuleStatus.failed) ∧
      (runAnalysisModules true w1st (fun _ => true)).1.analysisStatus =
        AnalysisStatus.running) := by
  exact ⟨by decide, by decide,
    advance_all_terminal w1st (fun _ => true) (by decide) (by decide)⟩

def c1mods : ModuleType → Option ModuleRec
  | ModuleType.market_demand => some ⟨ModuleStatus.completed, 100⟩
  | ModuleType.revenue_intelligence => some ⟨ModuleStatus.failed, 0⟩
  | _ => none

def c1st : Store :=
  { userId := "owner1c"
    selected := [ModuleType.market_demand, ModuleType.revenue_intelligence]
    analysisStatus := AnalysisStatus.running
    analysisProgress := 50
    mods := c1mods
    checkpoints := [] }

/-- C1 (counterexample): a workflow whose units are all terminal but one
of them `failed` is NOT classified complete by the advance operation, and
its record is not marked completed — contradicting the claim that a
workflow containing some failed units still reaches the completed
classification. -/
theorem advance_all_terminal_failed_cex :
    (∀ t ∈ c1st.selected,
      c1st.getModuleStatus t = some ModuleStatus.completed ∨
      c1st.getModuleStatus t = some ModuleStatus.approved ∨
      c1st.getModuleStatus t = some ModuleStatus.skipped ∨
      c1st.getModuleStatus t = some ModuleStatus.failed) ∧
    (runAnalysisModules true c1st (fun _ => true)).2.isComplete = false ∧
    (runAnalysisModules true c1st (fun _ => true)).1.analysisStatus =
      AnalysisStatus.running := by
  refine ⟨by decide, ?_, ?_⟩
  · rw [runAnalysisModules_empty_ready c1st (fun _ => true) true (by decide)]
    decide
  · rw [runAnalysisModules_empty_ready c1st (fun _ => true) true (by decide)]
    exact updateProgress_status c1st (by decide)

/-! ## Claim C2: persisted workflow status after a successful reviewed unit -/

lemma runAnalysisModules_nonempty (st : Store) (outcome : ModuleType → Bool)
    (e : Bool) (h : st.getReadyModules.isEmpty = false) :
    runAnalysisModules e st outcome =
      (if (updateProgress (execLoop e outcome st st.getReadyModules).1).1.isComplete then
          finalize (updateProgress (execLoop e outcome st st.getReadyModules).1).1
        else (updateProgress (execLoop e outcome st st.getReadyModules).1).1,
       { success := (execLoop e outcome st st.getReadyModules).2.2.isEmpty
         modulesExecuted := (execLoop e outcome st st.getReadyModules).2.1
         modulesFailed := (execLoop e outcome st st.getReadyModules).2.2
         isComplete :=
           (updateProgress (execLoop e outcome st st.getReadyModules).1).1.isComplete
         isAwaitingHITL :=
           (updateProgress (execLoop e outcome st st.getReadyModules).1).1.isAwaitingHITL
         progress := (updateProgress (execLoop e outcome st st.getReadyModules).1).2 }) := by
  simp only [runAnalysisModules, h, Bool.false_eq_true, if_false]

lemma mods_isSome_of_ready (st : Store) (t : ModuleType)
    (ht : t ∈ st.getReadyModules) : (st.mods t).isSome := by
  rw [Store.getReadyModules] at ht
  have hpred := (List.mem_filter.mp ht).2
  rcases h : st.mods t with _ | m
  · rw [Bool.and_eq_true, Bool.or_eq_true] at hpred
    rcases hpred.1 with h' | h' <;>
      simp [Store.getModuleStatus, h, decide_eq_true_eq] at h'
  · rfl

/-- C2 (amended): whenever a ready unit's executor succeeds with review
enabled, the advance call sets that unit to awaiting-review
(`hitl_pending`, progress 100) and reports `isAwaitingHITL = true` — but
the workflow record's persisted status at the end of the call is
`running`, not `hitl_pending`: the trailing `updateProgress` write
overwrites the `hitl_pending` analysis status written by
`executeModule`. -/
theorem advance_success_review_final_status (st : Store)
    (outcome : ModuleType → Bool) (t : ModuleType)
    (ht : t ∈ st.getReadyModules) (ho : outcome t = true) :
    (runAnalysisModules true st outcome).1.mods t =
      some { status := ModuleStatus.hitl_pending, progress := 100 } ∧
    (runAnalysisModules true st outcome).2.isAwaitingHITL = true ∧
    (runAnalysisModules true st outcome).1.analysisStatus =
      AnalysisStatus.running := by
  have hsome := mods_isSome_of_ready st t ht
  have htsel : t ∈ st.selected := by
    rw [Store.getReadyModules] at ht
    exact (List.mem_filter.mp ht).1
  have hne : st.getReadyModules.isEmpty = false := by
    rcases h : st.getReadyModules with _ | ⟨u, rest⟩
    · rw [h] at ht; simp at ht
    · rfl
  rw [runAnalysisModules_nonempty st outcome true hne]
  have hst1 := execLoop_fst true outcome st st.getReadyModules
  have hmods1 : (execLoop true outcome st st.getReadyModules).1.mods t =
      some { status := ModuleStatus.hitl_pending, progress := 100 } := by
    rw [hst1]
    exact execStores_mods_success outcome st st.getReadyModules t ht ho hsome
  have hsel1 : (execLoop true outcome st st.getReadyModules).1.selected =
      st.selected := by
    rw [hst1]
    exact execStores_selected true outcome st st.getReadyModules
  have hmodsup : (updateProgress (execLoop true outcome st st.getReadyModules).1).1.mods t =
      some { status := ModuleStatus.hitl_pending, progress := 100 } := by
    rw [updateProgress_mods]
    exact hmods1
  have hselup : (updateProgress (execLoop true outcome st st.getReadyModules).1).1.selected =
      st.selected := by
    rw [updateProgress_selected]
    exact hsel1
  have hic : (updateProgress (execLoop true outcome st st.getReadyModules).1).1.isComplete
      = false := by
    rw [Bool.eq_false_iff]
    intro hcomp
    have := List.all_eq_true.mp hcomp t (by rw [hselup]; exact htsel)
    rw [Store.getModuleStatus, hmodsup] at this
    simp at this
  have hih : (updateProgress (execLoop true outcome st st.getReadyModules).1).1.isAwaitingHITL
      = true := by
    rw [Store.isAwaitingHITL, List.any_eq_true]
    refine ⟨t, by rw [hselup]; exact htsel, ?_⟩
    rw [Store.getModuleStatus, hmodsup]
    simp
  rw [hic]
  simp only [Bool.false_eq_true, if_false]
  refine ⟨hmodsup, hih, ?_⟩
  apply updateProgress_status
  rw [hsel1]
  exact List.ne_nil_of_mem htsel

def w2mods : ModuleType → Option ModuleRec
  | ModuleType.market_demand => some ⟨ModuleStatus.completed, 100⟩
  | ModuleType.financial_modeling => some ⟨ModuleStatus.pending, 0⟩
  | _ => none

def w2st : Store :=
  { userId := "owner2"
    selected := [ModuleType.market_demand, ModuleType.financial_modeling]
    analysisStatus := AnalysisStatus.running
    analysisProgress := 50
    mods := w2mods
    checkpoints := [] }

theorem advance_success_review_final_status_witness :
    ModuleType.financial_modeling ∈ w2st.getReadyModules ∧
    ((runAnalysisModules true w2st (fun _ => true)).1.mods
        ModuleType.financial_modeling =
      some { status := ModuleStatus.hitl_pending, progress := 100 } ∧
    (runAnalysisModules true w2st (fun _ => true)).2.isAwaitingHITL = true ∧
    (runAnalysisModules true w2st (fun _ => true)).1.analysisStatus =
      AnalysisStatus.running) := by
  exact ⟨by decide,
    advance_success_review_final_status w2st (fun _ => true)
      ModuleType.financial_modeling (by decide) rfl⟩

def c2mods : ModuleType → Option ModuleRec
  | ModuleType.market_demand => some ⟨ModuleStatus.pending, 0⟩
  | _ => none

def c2st : Store :=
  { userId := "owner2c"
    selected := [ModuleType.market_demand]
    analysisStatus := AnalysisStatus.running
    analysisProgress := 0
    mods := c2mods
    checkpoints := [] }

/-- C2 (counterexample): an advance call in which the only unit succeeds
with review enabled (it ends `hitl_pending` with a pending checkpoint and
the call reports awaiting review), yet the persisted workflow status at
the end of the call is `running`, not `hitl_pending` as claimed. -/
theorem advance_success_review_final_status_cex :
    (runAnalysisModules true c2st (fun _ => true)).2.modulesExecuted =
      [ModuleType.market_demand] ∧
    (runAnalysisModules true c2st (fun _ => true)).1.mods ModuleType.market_demand =
      some { status := ModuleStatus.hitl_pending, progress := 100 } ∧
    (runAnalysisModules true c2st (fun _ => true)).1.checkpoints =
      [{ id := 0, module_type := ModuleType.market_demand,
         status := CkStatus.pending, reviewer_id := none, action := none }] ∧
    (runAnalysisModules true c2st (fun _ => true)).2.isAwaitingHITL = true ∧
    (runAnalysisModules true c2st (fun _ => true)).1.analysisStatus ≠
      AnalysisStatus.hitl_pending := by
  refine ⟨by decide, by decide, by decide, by decide, by decide⟩

/-! ## Claim C3: effects of an advance call with empty ready list -/

lemma updateProgress_nonempty (st : Store) (h : st.selected ≠ []) :
    updateProgress st =
      ({ st with
          analysisStatus := AnalysisStatus.running
          analysisProgress := progressOf st.selected st.mods },
        progressOf st.selected st.mods) := by
  have hlen : ¬ st.selected.length = 0 := by
    simpa [List.length_eq_zero] using h
  unfold updateProgress
  rw [if_neg hlen]

/-- C3 (amended): when the Readiness Engine returns no ready module, the
advance call leaves every module record and every checkpoint record
unchanged and returns the classification computed from them — but it is
not free of side effects on the workflow record: `updateProgress` still
runs and persists status `running` together with the recomputed
progress. -/
theorem advance_empty_ready_effects (st : Store) (outcome : ModuleType → Bool)
    (hready : st.getReadyModules = []) (hsel : st.selected ≠ []) :
    (runAnalysisModules true st outcome).1.mods = st.mods ∧
    (runAnalysisModules true st outcome).1.checkpoints = st.checkpoints ∧
    (runAnalysisModules true st outcome).1.selected = st.selected ∧
    (runAnalysisModules true st outcome).1.userId = st.userId ∧
    (runAnalysisModules true st outcome).1.analysisStatus = AnalysisStatus.running ∧
    (runAnalysisModules true st outcome).1.analysisProgress =
      progressOf st.selected st.mods ∧
    (runAnalysisModules true st outcome).2 =
      { success := true
        modulesExecuted := []
        modulesFailed := []
        isComplete := st.isComplete
        isAwaitingHITL := st.isAwaitingHITL
        progress := progressOf st.selected st.mods } := by
  rw [runAnalysisModules_empty_ready st outcome true hready,
    updateProgress_nonempty st hsel]
  exact ⟨rfl, rfl, rfl, rfl, rfl, rfl, rfl⟩

def w3mods : ModuleType → Option ModuleRec
  | ModuleType.market_demand => some ⟨ModuleStatus.hitl_pending, 100⟩
  | ModuleType.financial_modeling => some ⟨ModuleStatus.pending, 0⟩
  | _ => none

def w3st : Store :=
  { userId := "owner3"
    selected := [ModuleType.market_demand, ModuleType.financial_modeling]
    analysisStatus := AnalysisStatus.hitl_pending
    analysisProgress := 45
    mods := w3mods
    checkpoints := [{ id := 0, module_type := ModuleType.market_demand,
                      status := CkStatus.pending, reviewer_id := none,
                      action := none }] }

theorem advance_empty_ready_effects_witness :
    w3st.getReadyModules = [] ∧ w3st.selected ≠ [] ∧
    ((runAnalysisModules true w3st (fun _ => true)).1.mods = w3st.mods ∧
      (runAnalysisModules true w3st (fun _ => true)).1.checkpoints =
        w3st.checkpoints ∧
      (runAnalysisModules true w3st (fun _ => true)).1.selected = w3st.selected ∧
      (runAnalysisModules true w3st (fun _ => true)).1.userId = w3st.userId ∧
      (runAnalysisModules true w3st (fun _ => true)).1.analysisStatus =
        AnalysisStatus.running ∧
      (runAnalysisModules true w3st (fun _ => true)).1.analysisProgress =
        progressOf w3st.selected w3st.mods ∧
      (runAnalysisModules true w3st (fun _ => true)).2 =
        { success := true
          modulesExecuted := []
          modulesFailed := []
          isComplete := w3st.isComplete
          isAwaitingHITL := w3st.isAwaitingHITL
          progress := progressOf w3st.selected w3st.mods }) := by
  exact ⟨by decide, by decide,
    advance_empty_ready_effects w3st (fun _ => true) (by decide) (by decide)⟩

def c3mods : ModuleType → Option ModuleRec
  | ModuleType.market_demand => some ⟨ModuleStatus.hitl_pending, 100⟩
  | _ => none

def c3st : Store :=
  { userId := "owner3c"
    selected := [ModuleType.market_demand]
    analysisStatus := AnalysisStatus.hitl_pending
    analysisProgress := 90
    mods := c3mods
    checkpoints := [{ id := 0, module_type := ModuleType.market_demand,
                      status := CkStatus.pending, reviewer_id := none,
                      action := none }] }

/-- C3 (counterexample): with an empty ready list the advance call still
mutates the persisted workflow record: a workflow paused at
`hitl_pending` comes back with status `running` — contradicting the
claim that all persisted records are left unchanged. -/
theorem advance_empty_ready_effects_cex :
    c3st.getReadyModules = [] ∧
    c3st.analysisStatus = AnalysisStatus.hitl_pending ∧
    (runAnalysisModules true c3st (fun _ => true)).1.analysisStatus =
      AnalysisStatus.running ∧
    (runAnalysisModules true c3st (fun _ => true)).1.analysisStatus ≠
      c3st.analysisStatus := by
  refine ⟨by decide, rfl, by decide, by decide⟩

/-! ## Claim C4: resolving a non-pending checkpoint -/

/-- C4: for an authorized request naming an existing checkpoint whose
status is not `pending`, the resolve endpoint answers the
"Checkpoint is already resolved" conflict and performs no write at all:
the returned store is the input store (checkpoint, module and workflow
records untouched) and no continuation result exists. -/
theorem resolve_already_resolved (st : Store) (cid : Nat) (uid : String)
    (action : HITLAction) (outcome : ModuleType → Bool) (ck : CheckpointRec)
    (hfind : st.checkpoints.find? (fun c => c.id = cid) = some ck)
    (hauth : st.userId = uid)
    (hst : ck.status ≠ CkStatus.pending) :
    resolveHandler st cid uid action outcome =
      (st, Except.error ResolveError.alreadyResolved) := by
  unfold resolveHandler
  rw [hfind]
  simp only [hauth]
  rw [if_neg (fun h => h rfl), if_pos hst]

def w4st : Store :=
  { userId := "owner4"
    selected := [ModuleType.market_demand]
    analysisStatus := AnalysisStatus.running
    analysisProgress := 100
    mods := fun t =>
      if t = ModuleType.market_demand then
        some { status := ModuleStatus.completed, progress := 100 }
      else none
    checkpoints := [{ id := 7, module_type := ModuleType.market_demand,
                      status := CkStatus.approved,
                      reviewer_id := some "owner4",
                      action := some HITLAction.approve_all }] }

theorem resolve_already_resolved_witness :
    w4st.checkpoints.find? (fun c => c.id = 7) =
      some { id := 7, module_type := ModuleType.market_demand,
             status := CkStatus.approved, reviewer_id := some "owner4",
             action := some HITLAction.approve_all } ∧
    w4st.userId = "owner4" ∧
    ({ id := 7, module_type := ModuleType.market_demand,
       status := CkStatus.approved, reviewer_id := some "owner4",
       action := some HITLAction.approve_all : CheckpointRec }).status ≠
      CkStatus.pending ∧
    resolveHandler w4st 7 "owner4" HITLAction.approve_all (fun _ => true) =
      (w4st, Except.error ResolveError.alreadyResolved) := by
  refine ⟨by decide, rfl, by decide, ?_⟩
  exact resolve_already_resolved w4st 7 "owner4" HITLAction.approve_all
    (fun _ => true)
    { id := 7, module_type := ModuleType.market_demand,
      status := CkStatus.approved, reviewer_id := some "owner4",
      action := some HITLAction.approve_all }
    (by decide) rfl (by decide)

/-! ## Claim C9: progress across successive advance / resolve calls -/

/-- C9 (amended): the progress value computed by `updateProgress` is
monotone in the per-unit weights: whenever no unit's weight decreases
between two module-record states, the computed progress does not
decrease.  (Across successive advance/resolve calls this covers the
approval path, where a unit's weight moves 0.9 → 1; a rejection or
revision resolution drops a unit's weight from 0.9 to 0 and the progress
may then decrease, as the counterexample shows.) -/
theorem progressOf_mono (selected : List ModuleType)
    (m1 m2 : ModuleType → Option ModuleRec)
    (h : ∀ t ∈ selected, specWeight m1 t ≤ specWeight m2 t) :
    progressOf selected m1 ≤ progressOf selected m2 := by
  rw [progressOf_eq_specProgress, progressOf_eq_specProgress]
  unfold specProgress mathRound
  apply Int.floor_le_floor
  apply add_le_add_right
  rcases eq_or_ne selected [] with rfl | hne
  · simp
  · have hn : (0:ℚ) < selected.length := by
      exact_mod_cast List.length_pos.mpr hne
    have hsum : (selected.map (specWeight m1)).sum ≤
        (selected.map (specWeight m2)).sum :=
      List.sum_le_sum h
    gcongr

def w9m1 : ModuleType → Option ModuleRec
  | ModuleType.market_demand => some ⟨ModuleStatus.hitl_pending, 100⟩
  | _ => none

def w9m2 : ModuleType → Option ModuleRec
  | ModuleType.market_demand => some ⟨ModuleStatus.completed, 100⟩
  | _ => none

theorem progressOf_mono_witness :
    (∀ t ∈ [ModuleType.market_demand], specWeight w9m1 t ≤ specWeight w9m2 t) ∧
    progressOf [ModuleType.market_demand] w9m1 ≤
      progressOf [ModuleType.market_demand] w9m2 := by
  have h : ∀ t ∈ [ModuleType.market_demand],
      specWeight w9m1 t ≤ specWeight w9m2 t := by
    intro t ht
    rw [List.mem_singleton] at ht
    subst ht
    norm_num [specWeight, w9m1, w9m2]
  exact ⟨h, progressOf_mono [ModuleType.market_demand] w9m1 w9m2 h⟩

def c9mods : ModuleType → Option ModuleRec
  | ModuleType.market_demand => some ⟨ModuleStatus.pending, 0⟩
  | _ => none

def c9st : Store :=
  { userId := "owner9"
    selected := [ModuleType.market_demand]
    analysisStatus := AnalysisStatus.running
    analysisProgress := 0
    mods := c9mods
    checkpoints := [] }

/-- C9 (counterexample): an advance call yields persisted progress 90
(one unit awaiting review, weight 0.9); resolving its checkpoint with
`reject` moves the unit to `skipped` (weight 0) and the continuation
persists progress 0 — the progress decreased from 90 to 0 across the
two successive calls, and not while awaiting review. -/
theorem progress_monotonicity_cex :
    (runAnalysisModules true c9st (fun _ => true)).2.progress = 90 ∧
    (runAnalysisModules true c9st (fun _ => true)).1.analysisProgress = 90 ∧
    (resolveHandler (runAnalysisModules true c9st (fun _ => true)).1 0 "owner9"
        HITLAction.reject (fun _ => true)).1.analysisProgress = 0 ∧
    (resolveHandler (runAnalysisModules true c9st (fun _ => true)).1 0 "owner9"
        HITLAction.reject (fun _ => true)).1.analysisProgress <
      (runAnalysisModules true c9st (fun _ => true)).2.progress := by
  have h1 : (runAnalysisModules true c9st (fun _ => true)).2.progress = 90 := by
    simp +decide [runAnalysisModules, execLoop, executeModule, Store.setModule,
      updateProgress, progressOf, progressWeights, progressStep, mathRound,
      Store.getReadyModules, Store.canExecuteModule, Store.getModuleStatus,
      Store.isComplete, Store.isAwaitingHITL, finalize, c9st, c9mods,
      MODULE_DEPENDENCIES]
    norm_num
  have h1' : (runAnalysisModules true c9st (fun _ => true)).1.analysisProgress = 90 := by
    simp +decide [runAnalysisModules, execLoop, executeModule, Store.setModule,
      updateProgress, progressOf, progressWeights, progressStep, mathRound,
      Store.getReadyModules, Store.canExecuteModule, Store.getModuleStatus,
      Store.isComplete, Store.isAwaitingHITL, finalize, c9st, c9mods,
      MODULE_DEPENDENCIES]
    norm_num
  have h2 : (resolveHandler (runAnalysisModules true c9st (fun _ => true)).1 0 "owner9"
      HITLAction.reject (fun _ => true)).1.analysisProgress = 0 := by
    simp +decide [resolveHandler, updateModuleStatusStore, resolvedStatus,
      runAnalysisModules, execLoop, executeModule, Store.setModule,
      updateProgress, progressOf, progressWeights, progressStep, mathRound,
      Store.getReadyModules, Store.canExecuteModule, Store.getModuleStatus,
      Store.isComplete, Store.isAwaitingHITL, finalize, c9st, c9mods,
      MODULE_DEPENDENCIES]
    norm_num
  exact ⟨h1, h1', h2, by rw [h1, h2]; norm_num⟩
